import Mathlib

/-!
Shallow embedding of `misskey-channel-archiver` (src/main.rs).

The reaction-key classifier (`CanonicalEmojiKey::deserialize` /
`CanonicalEmojiKey::serialize`), the Archive pagination loop, the FetchUser
resolution loop, the authorization-token handling, and the reaction-count
deserialization are translated here as executable Lean definitions.

Rust machine integers are modelled as `Nat` (with an explicit `% 2^32`
where the source performs an `as u32` narrowing), strings as Lean `String`
(Rust `String` equality is byte equality, and `.chars()` iteration matches
`String.data`), and code that can panic returns `Option`.

The `emojis` crate (the Unicode emoji registry) is an external collaborator
of the program; it is modelled as an explicit `List String` parameter whose
entries play the role of `emojis::iter()`'s `as_str()` values.
-/

set_option linter.unusedVariables false

namespace MisskeyChannelArchiver

/-- The combining keycap marker U+20E3 used by the `BoxedSingleDigit` check. -/
def keycap : Char := Char.ofNat 0x20E3

/-- Character class `[a-z0-9_-]` of the custom-emoji regex. -/
def isEmojiNameChar (c : Char) : Bool :=
  ('a' ≤ c && c ≤ 'z') || ('0' ≤ c && c ≤ '9') || c = '_' || c = '-'

/-- The anchored regex `^:([a-z0-9_-]+)@\.:$` from `CanonicalEmojiKey::deserialize`:
returns the first (only) capture group when the whole string matches, `none`
otherwise.  A match is forced to be `:` + name + `@.:` with a nonempty name of
class characters, because the class excludes `@`, `.` and `:`. -/
def customEmojiCaptureAux : List Char → Option (List Char)
  | [] => none
  | c :: rest =>
    if c = ':' ∧ rest.drop (rest.length - 3) = ['@', '.', ':']
        ∧ rest.take (rest.length - 3) ≠ []
        ∧ (∀ ch ∈ rest.take (rest.length - 3), isEmojiNameChar ch)
    then some (rest.take (rest.length - 3)) else none

/-- The regex match on a `String`, returning the captured name. -/
def customEmojiCapture (raw : String) : Option String :=
  (customEmojiCaptureAux raw.data).map String.mk

/-- Newtype `EmojiName` from the source. -/
structure EmojiName where
  val : String
deriving DecidableEq, Repr

/-- Marker type `LocalOnly` (the `@.` host part of a custom emoji). -/
inductive LocalOnly where
  | mk
deriving DecidableEq, Repr

/-- The `CanonicalEmojiKey` enum from the source. -/
inductive CanonicalEmojiKey where
  | SingleCodepointPunctuation (c : Char)
  | BoxedSingleDigit (digit : Nat)
  | Unicode (utf8 : String)
  | Custom (name : EmojiName) (host : LocalOnly)
  | Uncategorized (s : String)
deriving DecidableEq, Repr

/-- `CanonicalEmojiKey::deserialize` ("classify"): regex for custom emoji first,
then the emoji-registry lookup (`emojis::iter().find(|x| x.as_str() == &raw)`),
then the digit-keycap check.  The source indexes `raw.chars().next()` and
`.nth(1)` with `expect`, so an empty input panics, as does an input whose first
character is an ASCII digit but which has no second character; both panics are
modelled as `none`.  Everything else falls through to `Uncategorized`. -/
def CanonicalEmojiKey.deserialize (registry : List String) (raw : String) :
    Option CanonicalEmojiKey :=
  match customEmojiCapture raw with
  | some name => some (.Custom ⟨name⟩ .mk)
  | none =>
    match registry.find? (fun x => x == raw) with
    | some emoji => some (.Unicode emoji)
    | none =>
      match raw.data with
      | [] => none
      | c :: rest =>
        if c.isDigit then
          match rest with
          | [] => none
          | c2 :: _ =>
            if c2 = keycap then
              some (.BoxedSingleDigit (c.toNat - '0'.toNat))
            else some (.Uncategorized raw)
        else some (.Uncategorized raw)

/-- `CanonicalEmojiKey::serialize` ("render"): `Unicode` and `Uncategorized`
emit their stored string, `Custom` re-wraps the name as `:name@.:`, a
punctuation key emits its single character, and a boxed digit emits the
decimal digit followed by U+20E3 (`format!("{digit}\u{20e3}")`). -/
def CanonicalEmojiKey.serialize : CanonicalEmojiKey → String
  | .Unicode utf8 => utf8
  | .Custom name _host => ":" ++ name.val ++ "@.:"
  | .SingleCodepointPunctuation c => String.mk [c]
  | .BoxedSingleDigit digit => toString digit ++ String.mk [keycap]
  | .Uncategorized s => s

/-- Shape test used to record, as a decidable fact about a registry instance,
that it contains no bare two-character digit+keycap string: the real `emojis`
registry's keycap entries all carry U+FE0F between digit and keycap. -/
def isDigitKeycapPair (s : String) : Bool :=
  match s.data with
  | [c, c2] => c.isDigit && c2 = keycap
  | _ => false

/-- Shape test for the panicking one-character-digit inputs. -/
def singleDigitShape (raw : String) : Bool :=
  match raw.data with
  | [c] => c.isDigit
  | _ => false

/-- U+FE0F, the variation selector present in the registry's keycap entries. -/
def fe0f : Char := Char.ofNat 0xFE0F

/-- U+1F600, a plain one-codepoint registry emoji. -/
def grinning : String := String.mk [Char.ofNat 0x1F600]

/-- The fully-qualified keycap-zero registry entry `0` + U+FE0F + U+20E3. -/
def keycapZeroFq : String := String.mk ['0', fe0f, keycap]

/-- A small concrete stand-in instance for the emoji-registry collaborator,
used to evaluate the definitions on closed inputs.  Like the real registry it
contains no bare digit+keycap pair and no empty string. -/
def sampleRegistry : List String := [grinning, keycapZeroFq]

/-- Rust `NonZeroUsize`: a natural number known to be positive. -/
def NonZeroUsize := {n : Nat // 0 < n}

instance : DecidableEq NonZeroUsize :=
  inferInstanceAs (DecidableEq {n : Nat // 0 < n})

/-- Serde's `NonZeroUsize` deserialization: a numeric value of zero is
rejected. -/
def deserializeNonZeroUsize (n : Nat) : Option NonZeroUsize :=
  if h : 0 < n then some ⟨n, h⟩ else none

/-- Deserialization of the `reactions: HashMap<CanonicalEmojiKey, NonZeroUsize>`
field of `Note`: each raw entry's key goes through `CanonicalEmojiKey`'s
deserializer and its count through `NonZeroUsize`'s; the first failing entry
fails the whole map (serde aborts the containing `Note`). -/
def deserializeReactions (registry : List String) :
    List (String × Nat) → Option (List (CanonicalEmojiKey × NonZeroUsize))
  | [] => some []
  | (s, n) :: rest =>
    match CanonicalEmojiKey.deserialize registry s, deserializeNonZeroUsize n,
          deserializeReactions registry rest with
    | some k, some v, some tl => some ((k, v) :: tl)
    | _, _, _ => none

/-- `MisskeyFlavoredMarkdown` is a plain newtype over `String`. -/
abbrev MisskeyFlavoredMarkdown := String

/-- `PartialUser`: only the author id is kept from a note's `user` object. -/
structure PartialUser where
  id : String
deriving DecidableEq, Repr

/-- The `Note` record, with `DateTime<Utc>` modelled as an integer instant
(its `Ord` is what the crawler's `min_by_key` uses). -/
structure Note where
  id : String
  created_at : Int
  user : PartialUser
  text : Option MisskeyFlavoredMarkdown
  spoiler_disclaimer_text : Option String
  reply_to : Option String
  renote_on : Option String
  renote_count : Nat
  reply_count : Nat
  reactions : List (CanonicalEmojiKey × NonZeroUsize)
deriving DecidableEq

/-- The request payload `ChannelTimelineCommand` (serde field names in
comments): `channelId`, `limit`, optional `sinceId`, `untilId`,
`sinceDate`, `untilDate`. -/
structure ChannelTimelineCommand where
  channel_id : String
  limit : Nat
  note_after : Option String
  note_before : Option String
  date_after : Option Nat
  date_before : Option Nat
deriving DecidableEq, Repr

/-- The request built at the top of each Archive loop iteration:
`limit` 60, `sinceId` the constant operator `after`, `untilId` the current
`last_note` cursor, no date bounds. -/
def mkTimelineRequest (channel_id : String) (after : Option String)
    (last_note : Option String) : ChannelTimelineCommand :=
  { channel_id := channel_id, limit := 60, note_after := after,
    note_before := last_note, date_after := none, date_before := none }

/-- Rust `Iterator::min_by_key` on `created_at`: the first element with the
minimal key (later elements replace the current minimum only when strictly
smaller). -/
def minByCreatedAt : List Note → Option Note
  | [] => none
  | x :: xs =>
    match minByCreatedAt xs with
    | none => some x
    | some y => if y.created_at < x.created_at then some y else some x

/-- The in-memory state of the Archive loop: the `last_note` cursor
(initially `None`), the `users` hash set, and the pages printed so far. -/
structure CrawlState where
  last_note : Option String
  users : Finset String
  emitted : List (List Note)
deriving DecidableEq

/-- One non-empty-page iteration of the Archive loop body after the
emptiness check: move the cursor to the minimum-creation-time note's id,
emit the page, and `extend` the user set with the page's author ids. -/
def crawlStep (st : CrawlState) (page : List Note) : CrawlState :=
  { last_note := (minByCreatedAt page).map (fun n => n.id),
    users := page.foldl (fun s n => insert n.user.id s) st.users,
    emitted := st.emitted ++ [page] }

/-- The Archive loop, driven by the successive timeline responses: each
iteration records the request it would send, stops (`break`) when the
response page is empty, and otherwise performs `crawlStep` and continues.
An exhausted response list models a run cut short by a transport error. -/
def archiveLoop (channel_id : String) (after : Option String)
    (st : CrawlState) : List (List Note) → List ChannelTimelineCommand × CrawlState
  | [] => ([], st)
  | page :: rest =>
    let req := mkTimelineRequest channel_id after st.last_note
    if page.isEmpty then ([req], st)
    else
      let next := archiveLoop channel_id after (crawlStep st page) rest
      (req :: next.1, next.2)

/-- The Archive arm of `main`: `last_note` is initialised to `None` and the
`users` set to the empty set; the `before` argument is bound but never read
by the loop. -/
def archiveMain (before after : Option String) (channel_id : String)
    (pages : List (List Note)) : List ChannelTimelineCommand × CrawlState :=
  archiveLoop channel_id after
    { last_note := none, users := ∅, emitted := [] } pages

/-- The cool-down computation shared by both loop bodies:
`sleep_sec = cool_down / 1000` (whole seconds) and
`sleep_nano = ((cool_down - sleep_sec * 1000) as u32) * 1_000_000` (a `u32`
multiplication, hence the explicit `% 2^32` narrowings); `None` means zero.
Returned as `(seconds, nanoseconds)`, the arguments of `Duration::new`. -/
def cooldownDuration (cool_down : Option NonZeroUsize) : Nat × Nat :=
  let sleep_sec := (cool_down.map (fun x => x.val / 1000)).getD 0
  let sleep_nano :=
    ((cool_down.map (fun x => x.val - sleep_sec * 1000)).getD 0) % 4294967296
      * 1000000 % 4294967296
  (sleep_sec, sleep_nano)

/-- The `DetailedUser` profile record, with `Url` modelled as its text. -/
structure DetailedUser where
  id : String
  screen_name : Option String
  mention : String
  is_bot : Bool
  is_cat : Bool
  icon_url : String
deriving DecidableEq, Repr

/-- Observable events of the FetchUser loop, in program order: the profile
request for an id, the emission (println) of the resolved profile, and the
inter-request sleep with the `Duration::new(sec, nano)` arguments. -/
inductive FetchEvent where
  | request (u : String)
  | emit (d : DetailedUser)
  | sleepFor (sec : Nat) (nano : Nat)
deriving DecidableEq, Repr

/-- Projection selecting request events. -/
def FetchEvent.requestOf : FetchEvent → Option String
  | .request u => some u
  | _ => none

/-- Projection selecting emitted profiles. -/
def FetchEvent.emitOf : FetchEvent → Option DetailedUser
  | .emit d => some d
  | _ => none

/-- The FetchUser arm of `main`: for each id of the operator-supplied list in
order, send a `UserDetailCommand` (the response given by the transport oracle
`fetch`), print the resolved profile, and sleep the cool-down — the sleep
runs at the end of every iteration, the last included. -/
def fetchUserRun (fetch : String → DetailedUser)
    (cool_down : Option NonZeroUsize) : List String → List FetchEvent
  | [] => []
  | u :: us =>
    let result := fetch u
    let d := cooldownDuration cool_down
    .request u :: .emit result :: .sleepFor d.1 d.2 :: fetchUserRun fetch cool_down us

/-- `MisskeyAuthorizationToken`, the opaque credential wrapper. -/
structure MisskeyAuthorizationToken where
  val : String
deriving DecidableEq, Repr

/-- `MisskeyAuthorizationToken::leak`. -/
def MisskeyAuthorizationToken.leak (t : MisskeyAuthorizationToken) : String :=
  t.val

/-- The `Debug` implementation of the token: a fixed redacted rendering
`MisskeyAuthorizationToken \x7b value: "*****" \x7d`, independent of the
held value. -/
def MisskeyAuthorizationToken.debugFmt (_t : MisskeyAuthorizationToken) : String :=
  "MisskeyAuthorizationToken \x7b value: \"*****\" \x7d"

/-- serde_json rendering of one string (escaping of quote and backslash;
other escape-needing characters do not occur in the inputs considered). -/
def jsonStringLit (s : String) : String :=
  "\"" ++ String.join (s.data.map (fun c =>
    if c = '"' then "\\\"" else if c = '\\' then "\\\\" else String.mk [c])) ++ "\""

/-- serde_json body fields of `ChannelTimelineCommand`, in declaration order,
`None` optionals skipped (`skip_serializing_if`). -/
def ChannelTimelineCommand.fieldsJson (c : ChannelTimelineCommand) : String :=
  jsonStringLit "channelId" ++ ":" ++ jsonStringLit c.channel_id
  ++ "," ++ jsonStringLit "limit" ++ ":" ++ toString c.limit
  ++ (match c.note_after with
      | none => ""
      | some a => "," ++ jsonStringLit "sinceId" ++ ":" ++ jsonStringLit a)
  ++ (match c.note_before with
      | none => ""
      | some b => "," ++ jsonStringLit "untilId" ++ ":" ++ jsonStringLit b)
  ++ (match c.date_after with
      | none => ""
      | some n => "," ++ jsonStringLit "sinceDate" ++ ":" ++ toString n)
  ++ (match c.date_before with
      | none => ""
      | some n => "," ++ jsonStringLit "untilDate" ++ ":" ++ toString n)

/-- The line printed to stderr by `ChannelTimelineCommand::send` before the
request goes out: `serde_json::to_string` of `WithTokenRef`, i.e. the flattened
request object prefixed with the real token under the field `i`. -/
def sendDiagnosticLine (token : MisskeyAuthorizationToken)
    (c : ChannelTimelineCommand) : String :=
  "\x7b" ++ jsonStringLit "i" ++ ":" ++ jsonStringLit token.val ++ ","
    ++ c.fieldsJson ++ "\x7d"

/-! Helper lemmas about characters and the regex matcher. -/

theorem char_digit_bounds {c : Char} (h : c.isDigit = true) :
    48 ≤ c.toNat ∧ c.toNat ≤ 57 := by
  simp [Char.isDigit] at h
  exact ⟨h.1, h.2⟩

theorem char_digit_ne_colon {c : Char} (h : c.isDigit = true) : ¬ c = ':' := by
  obtain ⟨_, h2⟩ := char_digit_bounds h
  intro hc
  subst hc
  exact absurd h2 (by decide)

theorem serialize_boxed_of_digit {c : Char} (h : c.isDigit = true) :
    (CanonicalEmojiKey.BoxedSingleDigit (c.toNat - '0'.toNat)).serialize
      = String.mk [c, keycap] := by
  obtain ⟨h1, h2⟩ := char_digit_bounds h
  show toString (c.toNat - '0'.toNat) ++ String.mk [keycap] = String.mk [c, keycap]
  simp only [show ('0').toNat = 48 from rfl]
  have hd : c.toNat - 48 ≤ 9 := by omega
  have hts : toString (c.toNat - 48) = String.mk [Char.ofNat (48 + (c.toNat - 48))] := by
    interval_cases hh : (c.toNat - 48) <;> decide
  rw [hts]
  have h48 : 48 + (c.toNat - 48) = c.toNat := by omega
  rw [h48, Char.ofNat_toNat]
  apply String.ext
  simp [String.data_append, keycap]

theorem customEmojiCaptureAux_eq_some_iff {l name : List Char} :
    customEmojiCaptureAux l = some name ↔
      l = ':' :: (name ++ ['@', '.', ':']) ∧ name ≠ []
        ∧ ∀ c ∈ name, isEmojiNameChar c := by
  constructor
  · intro h
    match l with
    | [] => simp [customEmojiCaptureAux] at h
    | c :: rest =>
      simp only [customEmojiCaptureAux] at h
      split at h
      case isTrue hc =>
        obtain ⟨hcol, htail, hne, hall⟩ := hc
        have hname : rest.take (rest.length - 3) = name := by
          simpa using h
        subst hcol
        rw [hname] at hne hall
        refine ⟨?_, hne, hall⟩
        have hsplit := List.take_append_drop (rest.length - 3) rest
        rw [hname, htail] at hsplit
        rw [← hsplit]
      case isFalse => exact absurd h (by simp)
  · rintro ⟨hl, hne, hall⟩
    subst hl
    simp only [customEmojiCaptureAux]
    have hlen : (name ++ ['@', '.', ':']).length - 3 = name.length := by
      simp
    rw [hlen, List.take_left, List.drop_left]
    exact if_pos ⟨trivial, rfl, hne, hall⟩

theorem customEmojiCapture_eq_some_iff {raw name : String} :
    customEmojiCapture raw = some name ↔
      raw = ":" ++ name ++ "@.:" ∧ name.data ≠ []
        ∧ ∀ c ∈ name.data, isEmojiNameChar c := by
  constructor
  · intro h
    obtain ⟨nm, hn, hmk⟩ := Option.map_eq_some'.1 h
    obtain ⟨hl, hne, hall⟩ := customEmojiCaptureAux_eq_some_iff.1 hn
    have hdata : name.data = nm := by rw [← hmk]
    refine ⟨?_, by rw [hdata]; exact hne, by rw [hdata]; exact hall⟩
    apply String.ext
    rw [hl, ← hdata]
    simp [String.data_append]
  · rintro ⟨hl, hne, hall⟩
    have hd : raw.data = ':' :: (name.data ++ ['@', '.', ':']) := by
      rw [hl]
      simp [String.data_append]
    unfold customEmojiCapture
    rw [hd, customEmojiCaptureAux_eq_some_iff.2 ⟨rfl, hne, hall⟩]
    cases name
    rfl

theorem customEmojiCapture_none_of_head_ne_colon {raw : String} {c : Char}
    {rest : List Char} (hd : raw.data = c :: rest) (hc : ¬ c = ':') :
    customEmojiCapture raw = none := by
  unfold customEmojiCapture
  rw [hd]
  simp only [customEmojiCaptureAux]
  rw [if_neg (by intro hcontra; exact hc hcontra.1)]
  rfl

/-! Branch equations of the classifier. -/

theorem deserialize_of_capture {reg : List String} {raw name : String}
    (h : customEmojiCapture raw = some name) :
    CanonicalEmojiKey.deserialize reg raw = some (.Custom ⟨name⟩ .mk) := by
  unfold CanonicalEmojiKey.deserialize
  rw [h]

theorem deserialize_of_find {reg : List String} {raw e : String}
    (h1 : customEmojiCapture raw = none)
    (h2 : reg.find? (fun x => x == raw) = some e) :
    CanonicalEmojiKey.deserialize reg raw = some (.Unicode e) := by
  unfold CanonicalEmojiKey.deserialize
  rw [h1, h2]

theorem deserialize_of_digit_keycap {reg : List String} {raw : String}
    {c c2 : Char} {rest : List Char}
    (h1 : customEmojiCapture raw = none)
    (h2 : reg.find? (fun x => x == raw) = none)
    (hd : raw.data = c :: c2 :: rest)
    (hdig : c.isDigit = true) (hk : c2 = keycap) :
    CanonicalEmojiKey.deserialize reg raw
      = some (.BoxedSingleDigit (c.toNat - '0'.toNat)) := by
  unfold CanonicalEmojiKey.deserialize
  rw [h1, h2, hd]
  simp only [hdig, if_true]
  rw [if_pos hk]

theorem deserialize_uncat_of_nondigit {reg : List String} {raw : String}
    {c : Char} {rest : List Char}
    (h1 : customEmojiCapture raw = none)
    (h2 : reg.find? (fun x => x == raw) = none)
    (hd : raw.data = c :: rest) (hdig : c.isDigit = false) :
    CanonicalEmojiKey.deserialize reg raw = some (.Uncategorized raw) := by
  unfold CanonicalEmojiKey.deserialize
  rw [h1, h2, hd]
  simp [hdig]

theorem deserialize_uncat_of_nonkeycap {reg : List String} {raw : String}
    {c c2 : Char} {rest : List Char}
    (h1 : customEmojiCapture raw = none)
    (h2 : reg.find? (fun x => x == raw) = none)
    (hd : raw.data = c :: c2 :: rest) (hk : ¬ c2 = keycap) :
    CanonicalEmojiKey.deserialize reg raw = some (.Uncategorized raw) := by
  unfold CanonicalEmojiKey.deserialize
  rw [h1, h2, hd]
  by_cases hdig : c.isDigit = true
  · simp only [hdig, if_true]
    rw [if_neg hk]
  · simp [hdig]

theorem deserialize_none_of_empty {reg : List String} {raw : String}
    (h1 : customEmojiCapture raw = none)
    (h2 : reg.find? (fun x => x == raw) = none)
    (hd : raw.data = []) :
    CanonicalEmojiKey.deserialize reg raw = none := by
  unfold CanonicalEmojiKey.deserialize
  rw [h1, h2, hd]

theorem deserialize_none_of_single_digit {reg : List String} {raw : String}
    {c : Char}
    (h1 : customEmojiCapture raw = none)
    (h2 : reg.find? (fun x => x == raw) = none)
    (hd : raw.data = [c]) (hdig : c.isDigit = true) :
    CanonicalEmojiKey.deserialize reg raw = none := by
  unfold CanonicalEmojiKey.deserialize
  rw [h1, h2, hd]
  simp [hdig]

/-- Inversion of a successful classification: the produced key is either the
input itself under `Unicode` or `Uncategorized`, a `Custom` key whose render
form equals the input, or a boxed digit obtained from an ASCII digit
character.  In particular `SingleCodepointPunctuation` never appears. -/
theorem deserialize_some_cases {reg : List String} {raw : String}
    {k : CanonicalEmojiKey}
    (h : CanonicalEmojiKey.deserialize reg raw = some k) :
    k = .Unicode raw ∨ k = .Uncategorized raw
      ∨ (∃ n : String, k = .Custom ⟨n⟩ .mk ∧ raw = ":" ++ n ++ "@.:")
      ∨ (∃ c : Char, c.isDigit = true
          ∧ k = .BoxedSingleDigit (c.toNat - '0'.toNat)) := by
  cases hc : customEmojiCapture raw with
  | some name =>
    rw [deserialize_of_capture hc] at h
    obtain ⟨hraw, _, _⟩ := customEmojiCapture_eq_some_iff.1 hc
    right; right; left
    refine ⟨name, ?_, hraw⟩
    injection h with h
    exact h.symm
  | none =>
    cases hf : reg.find? (fun x => x == raw) with
    | some e =>
      rw [deserialize_of_find hc hf] at h
      have hbeq := List.find?_some hf
      have he : e = raw := eq_of_beq hbeq
      injection h with h
      left
      rw [← h, he]
    | none =>
      cases hd : raw.data with
      | nil =>
        rw [deserialize_none_of_empty hc hf hd] at h
        cases h
      | cons c rest =>
        by_cases hdig : c.isDigit = true
        · cases rest with
          | nil =>
            rw [deserialize_none_of_single_digit hc hf hd hdig] at h
            cases h
          | cons c2 t =>
            by_cases hk : c2 = keycap
            · rw [deserialize_of_digit_keycap hc hf hd hdig hk] at h
              injection h with h
              right; right; right
              exact ⟨c, hdig, h.symm⟩
            · rw [deserialize_uncat_of_nonkeycap hc hf hd hk] at h
              injection h with h
              right; left
              exact h.symm
        · have hdig2 : c.isDigit = false := by
            simpa using hdig
          rw [deserialize_uncat_of_nondigit hc hf hd hdig2] at h
          injection h with h
          right; left
          exact h.symm

/-- A registry with no bare digit+keycap pair never finds the render form of
a boxed digit. -/
theorem find_none_of_no_digit_keycap {reg : List String} {c : Char}
    (hreg : reg.all (fun s => !(isDigitKeycapPair s)) = true)
    (hdig : c.isDigit = true) :
    reg.find? (fun x => x == String.mk [c, keycap]) = none := by
  rw [List.find?_eq_none]
  intro x hx hbeq
  have hxeq : x = String.mk [c, keycap] := eq_of_beq hbeq
  have hpair : isDigitKeycapPair x = true := by
    rw [hxeq]
    simp [isDigitKeycapPair, hdig]
  have := List.all_eq_true.1 hreg x hx
  rw [hpair] at this
  exact absurd this (by decide)

/-- Classifying the two-character render form of a boxed digit, against any
registry free of bare digit+keycap pairs, recovers the boxed digit. -/
theorem deserialize_digit_keycap_string {reg : List String} {c : Char}
    (hreg : reg.all (fun s => !(isDigitKeycapPair s)) = true)
    (hdig : c.isDigit = true) :
    CanonicalEmojiKey.deserialize reg (String.mk [c, keycap])
      = some (.BoxedSingleDigit (c.toNat - '0'.toNat)) := by
  have hd : (String.mk [c, keycap]).data = c :: keycap :: [] := rfl
  have hcap : customEmojiCapture (String.mk [c, keycap]) = none :=
    customEmojiCapture_none_of_head_ne_colon hd (char_digit_ne_colon hdig)
  have hfind := find_none_of_no_digit_keycap hreg hdig
  exact deserialize_of_digit_keycap hcap hfind hd hdig rfl

/-- Full characterization of the `BoxedSingleDigit` image of the classifier:
it is produced exactly for inputs that miss the custom-emoji regex and the
registry and whose first character is an ASCII digit with U+20E3 as the
second character, the rest of the input being ignored. -/
theorem deserialize_boxed_iff {reg : List String} {raw : String} {d : Nat} :
    CanonicalEmojiKey.deserialize reg raw = some (.BoxedSingleDigit d) ↔
      customEmojiCapture raw = none
        ∧ reg.find? (fun x => x == raw) = none
        ∧ ∃ c c2 rest, raw.data = c :: c2 :: rest ∧ c.isDigit = true
            ∧ c2 = keycap ∧ d = c.toNat - '0'.toNat := by
  constructor
  · intro h
    cases hc : customEmojiCapture raw with
    | some name =>
      rw [deserialize_of_capture hc] at h
      exact absurd h (by simp)
    | none =>
      refine ⟨rfl, ?_⟩
      cases hf : reg.find? (fun x => x == raw) with
      | some e =>
        rw [deserialize_of_find hc hf] at h
        exact absurd h (by simp)
      | none =>
        refine ⟨rfl, ?_⟩
        cases hd : raw.data with
        | nil =>
          rw [deserialize_none_of_empty hc hf hd] at h
          cases h
        | cons c rest =>
          by_cases hdig : c.isDigit = true
          · cases rest with
            | nil =>
              rw [deserialize_none_of_single_digit hc hf hd hdig] at h
              cases h
            | cons c2 t =>
              by_cases hk : c2 = keycap
              · rw [deserialize_of_digit_keycap hc hf hd hdig hk] at h
                injection h with h
                injection h with h
                exact ⟨c, c2, t, rfl, hdig, hk, h.symm⟩
              · rw [deserialize_uncat_of_nonkeycap hc hf hd hk] at h
                exact absurd h (by simp)
          · have hdig2 : c.isDigit = false := by simpa using hdig
            rw [deserialize_uncat_of_nondigit hc hf hd hdig2] at h
            exact absurd h (by simp)
  · rintro ⟨hc, hf, c, c2, rest, hd, hdig, hk, hdval⟩
    rw [deserialize_of_digit_keycap hc hf hd hdig hk, hdval]

/-- Totality domain of the classifier: every input that is nonempty and not a
lone ASCII digit classifies successfully (the two excluded shapes hit the
source's `expect` panics when they reach the digit check). -/
theorem deserialize_total_of_shape {reg : List String} {raw : String}
    (hne : raw.data ≠ []) (hsd : singleDigitShape raw = false) :
    ∃ k, CanonicalEmojiKey.deserialize reg raw = some k := by
  cases hc : customEmojiCapture raw with
  | some name => exact ⟨_, deserialize_of_capture hc⟩
  | none =>
    cases hf : reg.find? (fun x => x == raw) with
    | some e => exact ⟨_, deserialize_of_find hc hf⟩
    | none =>
      cases hd : raw.data with
      | nil => exact absurd hd hne
      | cons c rest =>
        by_cases hdig : c.isDigit = true
        · cases rest with
          | nil =>
            have : singleDigitShape raw = true := by
              unfold singleDigitShape
              rw [hd]
              simpa using hdig
            rw [this] at hsd
            cases hsd
          | cons c2 t =>
            by_cases hk : c2 = keycap
            · exact ⟨_, deserialize_of_digit_keycap hc hf hd hdig hk⟩
            · exact ⟨_, deserialize_uncat_of_nonkeycap hc hf hd hk⟩
        · have hdig2 : c.isDigit = false := by simpa using hdig
          exact ⟨_, deserialize_uncat_of_nondigit hc hf hd hdig2⟩

/-! Lemmas about the Archive crawl loop. -/

theorem minByCreatedAt_spec (n0 : Note) (ns : List Note) :
    ∃ n, minByCreatedAt (n0 :: ns) = some n ∧ n ∈ n0 :: ns
      ∧ ∀ m ∈ n0 :: ns, n.created_at ≤ m.created_at := by
  induction ns generalizing n0 with
  | nil =>
    refine ⟨n0, rfl, List.mem_singleton.2 rfl, ?_⟩
    intro m hm
    rw [List.mem_singleton.1 hm]
  | cons y ys ih =>
    obtain ⟨n1, hmin, hmem, hle⟩ := ih y
    by_cases hlt : n1.created_at < n0.created_at
    · refine ⟨n1, ?_, List.mem_cons_of_mem _ hmem, ?_⟩
      · show (match minByCreatedAt (y :: ys) with
          | none => some n0
          | some m =>
            if m.created_at < n0.created_at then some m else some n0) = some n1
        simp [hmin, hlt]
      · intro m hm
        rcases List.mem_cons.1 hm with hm | hm
        · rw [hm]; exact le_of_lt hlt
        · exact hle m hm
    · refine ⟨n0, ?_, List.mem_cons_self _ _, ?_⟩
      · show (match minByCreatedAt (y :: ys) with
          | none => some n0
          | some m =>
            if m.created_at < n0.created_at then some m else some n0) = some n0
        simp [hmin, hlt]
      · intro m hm
        rcases List.mem_cons.1 hm with hm | hm
        · rw [hm]
        · exact le_trans (not_lt.1 hlt) (hle m hm)

theorem foldl_insert_users (page : List Note) : ∀ s : Finset String,
    page.foldl (fun acc n => insert n.user.id acc) s
      = s ∪ (page.map (fun n => n.user.id)).toFinset := by
  induction page with
  | nil => intro s; simp
  | cons n ns ih =>
    intro s
    simp only [List.foldl_cons, List.map_cons, List.toFinset_cons]
    rw [ih, Finset.insert_union, Finset.union_insert]

/-- The set of author ids of all notes across a list of pages. -/
def authorsOf (pages : List (List Note)) : Finset String :=
  (pages.flatten.map (fun n => n.user.id)).toFinset

theorem crawlStep_users_exact {st : CrawlState} (page : List Note)
    (h : st.users = authorsOf st.emitted) :
    (crawlStep st page).users = authorsOf (crawlStep st page).emitted := by
  show page.foldl (fun acc n => insert n.user.id acc) st.users
    = authorsOf (st.emitted ++ [page])
  rw [foldl_insert_users, h]
  simp [authorsOf, List.toFinset_append]

theorem archive_users_exact (ch : String) (after : Option String) :
    ∀ (pages : List (List Note)) (st : CrawlState),
      st.users = authorsOf st.emitted →
      (archiveLoop ch after st pages).2.users
        = authorsOf (archiveLoop ch after st pages).2.emitted := by
  intro pages
  induction pages with
  | nil => intro st h; exact h
  | cons page rest ih =>
    intro st h
    show (if page.isEmpty
        then ([mkTimelineRequest ch after st.last_note], st)
        else
          let next := archiveLoop ch after (crawlStep st page) rest
          (mkTimelineRequest ch after st.last_note :: next.1, next.2)).2.users
      = authorsOf (if page.isEmpty
        then ([mkTimelineRequest ch after st.last_note], st)
        else
          let next := archiveLoop ch after (crawlStep st page) rest
          (mkTimelineRequest ch after st.last_note :: next.1, next.2)).2.emitted
    by_cases he : page.isEmpty
    · rw [if_pos he]
      exact h
    · rw [if_neg he]
      exact ih (crawlStep st page) (crawlStep_users_exact page h)

/-! Claim theorems. -/

/-- Claim C1: round-trip equivalence of the reaction-key classifier — for
every key producible by classification (against a registry that, like the
real one, holds no bare digit+keycap pair), classifying the rendered form
yields the same key back; and every raw string of the form
`:` + name + `@.:` with a nonempty `[a-z0-9_-]` name classifies to `Custom`
holding the captured name, whose render reproduces the exact original
string. -/
theorem classify_render_roundtrip :
    (∀ (registry : List String) (raw : String) (k : CanonicalEmojiKey),
      registry.all (fun s => !(isDigitKeycapPair s)) = true →
      CanonicalEmojiKey.deserialize registry raw = some k →
      CanonicalEmojiKey.deserialize registry k.serialize = some k)
    ∧ (∀ (registry : List String) (name : String),
      name.data ≠ [] → (∀ c ∈ name.data, isEmojiNameChar c) →
      CanonicalEmojiKey.deserialize registry (":" ++ name ++ "@.:")
          = some (.Custom ⟨name⟩ .mk)
        ∧ (CanonicalEmojiKey.Custom ⟨name⟩ .mk).serialize
          = ":" ++ name ++ "@.:") := by
  constructor
  · intro registry raw k hreg h
    rcases deserialize_some_cases h with hk | hk | ⟨n, hk, hraw⟩ | ⟨c, hdig, hk⟩
    · subst hk
      exact h
    · subst hk
      exact h
    · subst hk
      have hser : (CanonicalEmojiKey.Custom ⟨n⟩ .mk).serialize
          = ":" ++ n ++ "@.:" := rfl
      rw [hser, ← hraw]
      exact h
    · subst hk
      rw [serialize_boxed_of_digit hdig]
      exact deserialize_digit_keycap_string hreg hdig
  · intro registry name hne hall
    refine ⟨?_, rfl⟩
    exact deserialize_of_capture (customEmojiCapture_eq_some_iff.2 ⟨rfl, hne, hall⟩)

/-- Witness for C1, at concrete inputs: the custom key captured from
`:blob_cat@.:` and the boxed digit captured from `5`+U+20E3 both round-trip
through render against the sample registry. -/
theorem classify_render_roundtrip_witness :
    CanonicalEmojiKey.deserialize sampleRegistry
        (CanonicalEmojiKey.Custom ⟨"blob_cat"⟩ .mk).serialize
        = some (.Custom ⟨"blob_cat"⟩ .mk)
    ∧ CanonicalEmojiKey.deserialize sampleRegistry
        (CanonicalEmojiKey.BoxedSingleDigit 5).serialize
        = some (.BoxedSingleDigit 5)
    ∧ CanonicalEmojiKey.deserialize sampleRegistry (":" ++ "blob_cat" ++ "@.:")
        = some (.Custom ⟨"blob_cat"⟩ .mk)
    ∧ (CanonicalEmojiKey.Custom ⟨"blob_cat"⟩ .mk).serialize
        = ":" ++ "blob_cat" ++ "@.:" :=
  ⟨classify_render_roundtrip.1 sampleRegistry ":blob_cat@.:"
      (.Custom ⟨"blob_cat"⟩ .mk) (by decide) (by decide),
   classify_render_roundtrip.1 sampleRegistry (String.mk ['5', keycap])
      (.BoxedSingleDigit 5) (by decide) (by decide),
   (classify_render_roundtrip.2 sampleRegistry "blob_cat"
      (by decide) (by decide)).1,
   (classify_render_roundtrip.2 sampleRegistry "blob_cat"
      (by decide) (by decide)).2⟩

/-- Counterexample to claim C2: classification is not total — on the empty
string the source panics at `raw.chars().next().expect("must not be empty")`
(modelled as `none`), instead of returning `Uncategorized("")`. -/
theorem classify_not_total_on_empty :
    CanonicalEmojiKey.deserialize sampleRegistry "" = none := by decide

/-- Claim C2 as amended: classification succeeds on every input string that
is nonempty and not a lone ASCII digit (the two shapes on which the source
panics), and on every such input matched by no recognized pattern it yields
`Uncategorized` holding the input verbatim, on which render is the
identity. -/
theorem classify_total_amended :
    (∀ (registry : List String) (raw : String),
      raw.data ≠ [] → singleDigitShape raw = false →
      ∃ k, CanonicalEmojiKey.deserialize registry raw = some k)
    ∧ (∀ (registry : List String) (raw : String) (c : Char) (rest : List Char),
      customEmojiCapture raw = none →
      registry.find? (fun x => x == raw) = none →
      raw.data = c :: rest →
      (c.isDigit = false ∨ ∃ c2 t, rest = c2 :: t ∧ ¬ c2 = keycap) →
      CanonicalEmojiKey.deserialize registry raw = some (.Uncategorized raw)
        ∧ (CanonicalEmojiKey.Uncategorized raw).serialize = raw) := by
  constructor
  · intro registry raw hne hsd
    exact deserialize_total_of_shape hne hsd
  · intro registry raw c rest h1 h2 hd hcase
    refine ⟨?_, rfl⟩
    rcases hcase with hdig | ⟨c2, t, hrest, hk⟩
    · exact deserialize_uncat_of_nondigit h1 h2 hd hdig
    · subst hrest
      exact deserialize_uncat_of_nonkeycap h1 h2 hd hk

/-- Witness for the amended C2, at the concrete unrecognized input
`hello`: classification succeeds, yields `Uncategorized` verbatim, and
render is the identity on it. -/
theorem classify_total_amended_witness :
    (∃ k, CanonicalEmojiKey.deserialize sampleRegistry "hello" = some k)
    ∧ CanonicalEmojiKey.deserialize sampleRegistry "hello"
        = some (.Uncategorized "hello")
    ∧ (CanonicalEmojiKey.Uncategorized "hello").serialize = "hello" :=
  ⟨classify_total_amended.1 sampleRegistry "hello" (by decide) (by decide),
   (classify_total_amended.2 sampleRegistry "hello" 'h' ['e', 'l', 'l', 'o']
      (by decide) (by decide) (by decide) (Or.inl (by decide))).1,
   (classify_total_amended.2 sampleRegistry "hello" 'h' ['e', 'l', 'l', 'o']
      (by decide) (by decide) (by decide) (Or.inl (by decide))).2⟩

/-- Counterexample to claim C5: `BoxedSingleDigit` is not produced only for
exactly-two-character strings — the three-character input `5` + U+20E3 + `x`
also classifies to `BoxedSingleDigit 5`, because the source checks only the
first two characters. -/
theorem classify_boxed_three_chars :
    CanonicalEmojiKey.deserialize sampleRegistry (String.mk ['5', keycap, 'x'])
        = some (.BoxedSingleDigit 5)
    ∧ (String.mk ['5', keycap, 'x']).data.length = 3 := by
  constructor <;> decide

/-- Claim C5 as amended: classification yields `BoxedSingleDigit` exactly
when the input misses the custom-emoji regex and the registry, its first
character is an ASCII digit and its second is U+20E3 — any further
characters being ignored; the stored digit is the character code minus the
code of `0`, and render of a boxed digit produced this way is the
two-character digit+keycap string. -/
theorem classify_boxed_amended :
    (∀ (registry : List String) (raw : String) (d : Nat),
      CanonicalEmojiKey.deserialize registry raw = some (.BoxedSingleDigit d) ↔
        customEmojiCapture raw = none
          ∧ registry.find? (fun x => x == raw) = none
          ∧ ∃ c c2 rest, raw.data = c :: c2 :: rest ∧ c.isDigit = true
              ∧ c2 = keycap ∧ d = c.toNat - '0'.toNat)
    ∧ (∀ c : Char, c.isDigit = true →
      (CanonicalEmojiKey.BoxedSingleDigit (c.toNat - '0'.toNat)).serialize
        = String.mk [c, keycap]) :=
  ⟨fun _ _ _ => deserialize_boxed_iff, fun _ h => serialize_boxed_of_digit h⟩

/-- Witness for the amended C5 at the digit character `5`: its keycap pair
classifies to `BoxedSingleDigit 5` and renders back to the pair. -/
theorem classify_boxed_amended_witness :
    (CanonicalEmojiKey.deserialize sampleRegistry (String.mk ['5', keycap])
        = some (.BoxedSingleDigit ('5'.toNat - '0'.toNat)))
    ∧ ('5').isDigit = true
    ∧ (CanonicalEmojiKey.BoxedSingleDigit ('5'.toNat - '0'.toNat)).serialize
        = String.mk ['5', keycap] :=
  ⟨(classify_boxed_amended.1 sampleRegistry (String.mk ['5', keycap])
      ('5'.toNat - '0'.toNat)).2
    ⟨by decide, by decide, '5', keycap, [], by decide, by decide, rfl, rfl⟩,
   by decide,
   classify_boxed_amended.2 '5' (by decide)⟩

/-- Claim C10: classification never produces the
`SingleCodepointPunctuation` variant — its image is contained in the
`Custom`, `Unicode`, `BoxedSingleDigit` and `Uncategorized` variants. -/
theorem classify_never_punctuation :
    ∀ (registry : List String) (raw : String) (k : CanonicalEmojiKey),
      CanonicalEmojiKey.deserialize registry raw = some k →
      (∀ c : Char, k ≠ .SingleCodepointPunctuation c)
        ∧ ((∃ s, k = .Unicode s) ∨ (∃ s, k = .Uncategorized s)
          ∨ (∃ n h, k = .Custom n h) ∨ (∃ d, k = .BoxedSingleDigit d)) := by
  intro registry raw k h
  rcases deserialize_some_cases h with hk | hk | ⟨n, hk, _⟩ | ⟨c, _, hk⟩ <;>
    subst hk
  · exact ⟨fun c => by simp, Or.inl ⟨raw, rfl⟩⟩
  · exact ⟨fun c => by simp, Or.inr (Or.inl ⟨raw, rfl⟩)⟩
  · exact ⟨fun c => by simp, Or.inr (Or.inr (Or.inl ⟨⟨n⟩, .mk, rfl⟩))⟩
  · exact ⟨fun c2 => by simp, Or.inr (Or.inr (Or.inr ⟨_, rfl⟩))⟩

/-- Witness for C10 at the concrete input `hello`. -/
theorem classify_never_punctuation_witness :
    CanonicalEmojiKey.deserialize sampleRegistry "hello"
        = some (.Uncategorized "hello")
    ∧ (∀ c : Char,
        (CanonicalEmojiKey.Uncategorized "hello") ≠ .SingleCodepointPunctuation c) :=
  ⟨by decide,
   (classify_never_punctuation sampleRegistry "hello" (.Uncategorized "hello")
      (by decide)).1⟩

/-- Claim C4 (refuted, code bug): the first timeline request of an Archive
run carries no upper-bound id even when the operator supplies `before` —
the source initializes `last_note` to `None` and never reads `before`, so
for every supplied value the first request's `untilId` is `None`. -/
theorem archive_first_request_ignores_before :
    ∀ (before after : Option String) (ch : String)
      (page : List Note) (rest : List (List Note)),
      ((archiveMain before after ch (page :: rest)).1).head?
        = some (mkTimelineRequest ch after none) := by
  intro before after ch page rest
  show ((if page.isEmpty
      then ([mkTimelineRequest ch after none], CrawlState.mk none ∅ [])
      else
        let next := archiveLoop ch after
          (crawlStep (CrawlState.mk none ∅ []) page) rest
        (mkTimelineRequest ch after none :: next.1, next.2)).1).head?
    = some (mkTimelineRequest ch after none)
  by_cases he : page.isEmpty
  · rw [if_pos he]
    rfl
  · rw [if_neg he]
    rfl

/-- Claim C6: after a step on a non-empty page the cursor equals the id of
a note of that page of minimal creation time; an empty page makes the loop
return immediately, without touching the state (and so without any cursor
update). -/
theorem crawl_cursor_min_and_empty_stop :
    (∀ (st : CrawlState) (n0 : Note) (ns : List Note),
      ∃ n, n ∈ n0 :: ns ∧ (crawlStep st (n0 :: ns)).last_note = some n.id
        ∧ ∀ m ∈ n0 :: ns, n.created_at ≤ m.created_at)
    ∧ (∀ (ch : String) (after : Option String) (st : CrawlState)
        (rest : List (List Note)),
        archiveLoop ch after st ([] :: rest)
          = ([mkTimelineRequest ch after st.last_note], st)) := by
  constructor
  · intro st n0 ns
    obtain ⟨n, hmin, hmem, hle⟩ := minByCreatedAt_spec n0 ns
    refine ⟨n, hmem, ?_, hle⟩
    show (minByCreatedAt (n0 :: ns)).map (fun n => n.id) = some n.id
    rw [hmin]
    rfl
  · intro ch after st rest
    rfl

/-- Claim C7: across one Archive run the user set equals exactly the author
ids of all emitted pages, each step only grows it (so its size never
decreases), and as a finite set it holds no duplicates. -/
theorem crawl_users_monotone_exact :
    (∀ (before after : Option String) (ch : String) (pages : List (List Note)),
      (archiveMain before after ch pages).2.users
        = authorsOf (archiveMain before after ch pages).2.emitted)
    ∧ (∀ (st : CrawlState) (page : List Note),
        st.users ⊆ (crawlStep st page).users)
    ∧ (∀ (st : CrawlState) (page : List Note),
        st.users.card ≤ (crawlStep st page).users.card)
    ∧ (∀ (before after : Option String) (ch : String) (pages : List (List Note)),
        ((archiveMain before after ch pages).2.users).val.Nodup) := by
  have hsub : ∀ (st : CrawlState) (page : List Note),
      st.users ⊆ (crawlStep st page).users := by
    intro st page
    show st.users ⊆ page.foldl (fun acc n => insert n.user.id acc) st.users
    rw [foldl_insert_users]
    exact Finset.subset_union_left
  refine ⟨?_, hsub, fun st page => Finset.card_le_card (hsub st page), ?_⟩
  · intro before after ch pages
    exact archive_users_exact ch after pages _ (by simp [authorsOf])
  · intro before after ch pages
    exact ((archiveMain before after ch pages).2.users).nodup

/-- Claim C8: a successfully deserialized reaction mapping carries only
strictly positive counts, and any raw mapping holding a zero count is
rejected as a whole. -/
theorem reactions_positive_and_zero_rejected :
    (∀ (registry : List String) (raw : List (String × Nat))
        (m : List (CanonicalEmojiKey × NonZeroUsize)),
      deserializeReactions registry raw = some m →
      ∀ kv ∈ m, 0 < kv.2.val)
    ∧ (∀ (registry : List String) (pre post : List (String × Nat))
        (key : String),
      deserializeReactions registry (pre ++ (key, 0) :: post) = none) := by
  constructor
  · intro registry raw m _ kv _
    exact kv.2.2
  · intro registry pre post key
    induction pre with
    | nil =>
      show deserializeReactions registry ((key, 0) :: post) = none
      simp only [deserializeReactions]
      cases CanonicalEmojiKey.deserialize registry key <;>
        cases deserializeReactions registry post <;>
          simp [deserializeNonZeroUsize]
    | cons p pre ih =>
      obtain ⟨s, n⟩ := p
      show deserializeReactions registry ((s, n) :: (pre ++ (key, 0) :: post))
        = none
      simp only [deserializeReactions, ih]
      cases CanonicalEmojiKey.deserialize registry s <;>
        cases deserializeNonZeroUsize n <;> simp

/-- Witness for C8 at a concrete one-entry mapping with count 3. -/
theorem reactions_positive_witness :
    deserializeReactions sampleRegistry [(":blob_cat@.:", 3)]
        = some [(.Custom ⟨"blob_cat"⟩ .mk, ⟨3, by decide⟩)]
    ∧ (∀ kv ∈ ([(.Custom ⟨"blob_cat"⟩ .mk, (⟨3, by decide⟩ : NonZeroUsize))] :
          List (CanonicalEmojiKey × NonZeroUsize)), 0 < kv.2.val)
    ∧ deserializeReactions sampleRegistry ([] ++ (":blob_cat@.:", 0) :: [])
        = none :=
  ⟨by decide,
   reactions_positive_and_zero_rejected.1 sampleRegistry [(":blob_cat@.:", 3)]
      _ (by decide),
   reactions_positive_and_zero_rejected.2 sampleRegistry [] [] ":blob_cat@.:"⟩

/-- Claim C9: a FetchUser run visits the supplied id list in order without
deduplication — one request per element, the resolved profile emitted
immediately after it, and the cool-down sleep after every request, the last
included; the slept duration decomposes into whole seconds plus a sub-second
nanosecond remainder whose total equals the configured milliseconds. -/
theorem fetch_user_run_shape :
    ∀ (fetch : String → DetailedUser) (cd : Option NonZeroUsize)
      (users : List String),
      fetchUserRun fetch cd users
          = users.flatMap (fun u =>
              [.request u, .emit (fetch u),
               .sleepFor (cooldownDuration cd).1 (cooldownDuration cd).2])
        ∧ (fetchUserRun fetch cd users).filterMap FetchEvent.requestOf = users
        ∧ (fetchUserRun fetch cd users).filterMap FetchEvent.emitOf
          = users.map fetch
        ∧ (cooldownDuration cd).1 * 1000000000 + (cooldownDuration cd).2
          = (cd.map (fun x => x.val)).getD 0 * 1000000 := by
  intro fetch cd users
  refine ⟨?_, ?_, ?_, ?_⟩
  · induction users with
    | nil => rfl
    | cons u us ih => simp [fetchUserRun, ih]
  · induction users with
    | nil => rfl
    | cons u us ih =>
      simp [fetchUserRun, List.filterMap_cons, FetchEvent.requestOf, ih]
  · induction users with
    | nil => rfl
    | cons u us ih =>
      simp [fetchUserRun, List.filterMap_cons, FetchEvent.emitOf, ih]
  · cases cd with
    | none => rfl
    | some x =>
      obtain ⟨v, hv⟩ := x
      show v / 1000 * 1000000000
          + (v - v / 1000 * 1000) % 4294967296 * 1000000 % 4294967296
        = v * 1000000
      have hq := Nat.div_add_mod v 1000
      have h1 : v - v / 1000 * 1000 = v % 1000 := by omega
      have h2 : v % 1000 < 1000 := Nat.mod_lt _ (by norm_num)
      rw [h1, Nat.mod_eq_of_lt (by omega), Nat.mod_eq_of_lt (by omega)]
      omega

/-- Claim C3 (refuted, code bug): `ChannelTimelineCommand::send` prints the
serialized request — real token included under the field `i` — to stderr, so
the credential does appear in diagnostic output; the `Debug` rendering, by
contrast, does redact it, as the repository's own test asserts. -/
theorem send_leaks_token_debug_redacts :
    ("sometokenhere" : String).data
        <:+: (sendDiagnosticLine ⟨"sometokenhere"⟩
           (mkTimelineRequest "channel0" none none)).data
    ∧ ¬ ("sometokenhere" : String).data
        <:+: ((MisskeyAuthorizationToken.mk "sometokenhere").debugFmt).data := by
  constructor <;> decide

end MisskeyChannelArchiver
